import Mathlib

/-!
Shallow embedding of the browser whiteboard drawing model.

Sources: `src/app.js` (the most complete variant: element classes,
`Whiteboard.onMouseUp`, the eraser block of `Whiteboard.onMouseMove`,
`saveDrawing` / `loadDrawing`, `getBoundingBox`, `isInsideSelection`) and
`src/unnamed/part_001` (`StrokeElement.containsPoint`, the only variant
implementing stroke hit-testing).

Modelling conventions:
* JS numbers are modelled as exact rationals (`ℚ`).
* A JS comparison `Math.sqrt e ⋈ w` with `e ≥ 0` is modelled by the
  equivalent comparison over squares, split on the sign of `w`
  (`Math.sqrt e > w` iff `w < 0 ∨ e > w*w`).
* Render-only state (`smoothedPoints`, `opacityCache`, canvases) is not part
  of the data model and is omitted; these fields are write-only caches that
  never feed back into geometry, persistence or selection.
* A thrown JS `TypeError` is modelled by an explicit error flag: the state
  components the statement had already mutated in place keep their mutated
  values, and the components whose assignment the throw prevented keep their
  old values.
-/

namespace WB

/-- A pointer sample `{x, y, pressure}` as produced by `getMousePos`
(`src/app.js` lines 583-590). -/
structure Point where
  x : ℚ
  y : ℚ
  pressure : ℚ
deriving DecidableEq, Repr

/-- Squared Euclidean distance between two points; `Math.sqrt (dist2 p q)` is
the JS distance. -/
def dist2 (p q : Point) : ℚ :=
  (p.x - q.x) * (p.x - q.x) + (p.y - q.y) * (p.y - q.y)

/-- The `StrokeElement` class state (`src/app.js` lines 20-31): point list,
color, line width, pen type, and the smoothing toggles set by the
constructor.  The render caches `smoothedPoints` and `opacityCache` are
omitted (see the module comment). -/
structure StrokeElement where
  points : List Point
  color : String
  lineWidth : ℚ
  penType : String
  smoothingEnabled : Bool
  smoothingFactor : ℚ
deriving DecidableEq, Repr

/-- The `RectElement` class state (`src/app.js` lines 156-162). -/
structure RectElement where
  x : ℚ
  y : ℚ
  w : ℚ
  h : ℚ
  color : String
deriving DecidableEq, Repr

/-- The `CircleElement` class state (`src/app.js` lines 179-185). -/
structure CircleElement where
  x : ℚ
  y : ℚ
  radius : ℚ
  color : String
deriving DecidableEq, Repr

/-- The closed family of drawing elements: the three concrete subclasses of
`DrawingElement`. -/
inductive Element where
  | stroke (s : StrokeElement)
  | rect (r : RectElement)
  | circle (c : CircleElement)
deriving DecidableEq, Repr

/-- `StrokeElement.containsPoint` from `src/unnamed/part_001` lines 61-71:
fold min/max over all points (JS starts the folds at `±Infinity`; over `ℚ` we
case on emptiness — with no points the JS bounds stay `±Infinity` and the
conjunction `x >= Infinity - 5 && ...` is false), then test the box expanded
by the fixed `pad = 5`. -/
def StrokeElement.containsPoint (s : StrokeElement) (x y : ℚ) : Bool :=
  match s.points with
  | [] => false
  | p :: rest =>
      let minX := (rest.map Point.x).foldl min p.x
      let maxX := (rest.map Point.x).foldl max p.x
      let minY := (rest.map Point.y).foldl min p.y
      let maxY := (rest.map Point.y).foldl max p.y
      decide (minX - 5 ≤ x ∧ x ≤ maxX + 5 ∧ minY - 5 ≤ y ∧ y ≤ maxY + 5)

/-- One interior point of `getSmoothStroke` (`src/app.js` lines 91-106): the
current point blended toward the midpoint of itself and the next point by
`smoothingFactor` (the midpoint of the previous pair is computed in the JS
loop but never used); pressure is carried over from the current point. -/
def smoothPoint (f : ℚ) (curr next : Point) : Point :=
  { x := curr.x * f + ((curr.x + next.x) / 2) * (1 - f)
  , y := curr.y * f + ((curr.y + next.y) / 2) * (1 - f)
  , pressure := curr.pressure }

/-- `StrokeElement.getSmoothStroke` (`src/app.js` lines 85-110): returns the
raw points when smoothing is off or fewer than 3 points; otherwise the first
point, the blended interior points (the JS loop runs `i = 1 .. length-2`,
each using `points[i]` and `points[i+1]`), and the last point. -/
def StrokeElement.getSmoothStroke (s : StrokeElement) : List Point :=
  if s.smoothingEnabled = false ∨ s.points.length < 3 then s.points
  else
    match s.points with
    | [] => []
    | p :: rest =>
        p :: (List.zipWith (smoothPoint s.smoothingFactor) rest (rest.drop 1)
              ++ [(p :: rest).getLast (List.cons_ne_nil p rest)])

/-- `StrokeElement.addPoint` (`src/app.js` lines 131-142): with a previous
stored point, a new sample at JS distance `< 2` (squared distance `< 4`) is
dropped; otherwise the sample is appended. -/
def StrokeElement.addPoint (s : StrokeElement) (pos : Point) : StrokeElement :=
  match s.points.getLast? with
  | some prev => if dist2 pos prev < 4 then s else { s with points := s.points ++ [pos] }
  | none => { s with points := s.points ++ [pos] }

/-- The index-parity filter `points.filter((_, i) => i % 2 === 0)` used by
`simplify` (`src/app.js` line 124). -/
def evenIndexed {α : Type} (l : List α) : List α :=
  (l.enum.filter (fun pr => decide (pr.1 % 2 = 0))).map Prod.snd

/-- `StrokeElement.simplify` (`src/app.js` lines 122-126): decimate to the
even-indexed points once the stroke exceeds 500 points. -/
def StrokeElement.simplify (s : StrokeElement) : StrokeElement :=
  if 500 < s.points.length then { s with points := evenIndexed s.points } else s

/-- Recursive form of the even-index selection, used to reason about
`evenIndexed`. -/
def everyOther {α : Type} : List α → List α
  | [] => []
  | [a] => [a]
  | a :: _ :: rest => a :: everyOther rest

/-- Dynamic dispatch of `containsPoint` in `src/app.js`: `RectElement`
(lines 169-171) tests the closed rectangle, `CircleElement` (lines 194-197)
tests `Math.sqrt (dx*dx+dy*dy) <= radius` (over `ℚ`: radius nonnegative and
squared distance at most radius squared), and `StrokeElement` does not
override the method, so the `DrawingElement` base default `false` (line 5)
applies. -/
def Element.containsPoint : Element → ℚ → ℚ → Bool
  | .stroke _, _, _ => false
  | .rect r, x, y => decide (r.x ≤ x ∧ x ≤ r.x + r.w ∧ r.y ≤ y ∧ y ≤ r.y + r.h)
  | .circle c, x, y =>
      decide (0 ≤ c.radius ∧ (x - c.x) * (x - c.x) + (y - c.y) * (y - c.y) ≤ c.radius * c.radius)

/-- Dynamic dispatch of `move` in `src/app.js`: `RectElement` (lines 172-175)
and `CircleElement` (lines 198-201) translate their center/corner;
`StrokeElement` does not override the method, so the `DrawingElement` base
no-op (line 7) applies. -/
def Element.move : Element → ℚ → ℚ → Element
  | .stroke s, _, _ => .stroke s
  | .rect r, dx, dy => .rect { r with x := r.x + dx, y := r.y + dy }
  | .circle c, dx, dy => .circle { c with x := c.x + dx, y := c.y + dy }

/-- An `{x, y, w, h}` record, used both for bounding boxes and for the
rubber-band `selectionRect`. -/
structure BBox where
  x : ℚ
  y : ℚ
  w : ℚ
  h : ℚ
deriving DecidableEq, Repr

/-- `Whiteboard.getBoundingBox` (`src/app.js` lines 311-327).  For a stroke
with no points the JS min/max folds stay `±Infinity` and the box is
`{∞, ∞, -∞, -∞}`; we return `none` for that case (every later containment
test on such a box is false in JS, via `Infinity + (-Infinity) = NaN`). -/
def getBoundingBox : Element → Option BBox
  | .stroke s =>
      match s.points with
      | [] => none
      | p :: rest =>
          let minX := (rest.map Point.x).foldl min p.x
          let maxX := (rest.map Point.x).foldl max p.x
          let minY := (rest.map Point.y).foldl min p.y
          let maxY := (rest.map Point.y).foldl max p.y
          some ⟨minX, minY, maxX - minX, maxY - minY⟩
  | .rect r => some ⟨r.x, r.y, r.w, r.h⟩
  | .circle c => some ⟨c.x - c.radius, c.y - c.radius, c.radius * 2, c.radius * 2⟩

/-- `Whiteboard.isInsideSelection` (`src/app.js` lines 736-744): the
element's bounding box must lie fully inside the selection rectangle.  The
`none` bounding box (zero-point stroke) compares false, matching the JS
`NaN` comparison. -/
def isInsideSelection (el : Element) (rect : BBox) : Bool :=
  match getBoundingBox el with
  | none => false
  | some bb =>
      decide (rect.x ≤ bb.x ∧ rect.y ≤ bb.y ∧
              bb.x + bb.w ≤ rect.x + rect.w ∧ bb.y + bb.h ≤ rect.y + rect.h)

/-- The `Whiteboard` state components read or written by `onMouseUp` and the
eraser block of `onMouseMove` (`src/app.js` lines 204-266).  `selectionRect`
is `null` in JS until the first rubber-band gesture; since every handler path
that reads it follows a write, it is modelled as a plain record. -/
structure Whiteboard where
  elements : List Element
  currentElement : Option Element
  currentTool : String
  currentPenType : String
  isSelecting : Bool
  selectionRect : BBox
  isDraggingSelected : Bool
  isDraggingMultiple : Bool
  selectedElements : List Element
deriving DecidableEq, Repr

/-- `Whiteboard.onMouseUp` (`src/app.js` lines 703-733): dispatch over the
select tool, the rubber-band flag, the multi-drag flag, and finally the
in-progress element.  In the last branch the element is pushed for the four
drawing tools, pushed a second time when the tool is `pen` with pen type
`brush` (the "ensure brush strokes are also saved" block), and in that brush
case the list is then truncated to its most recent 1000 entries
(`slice(-1000)`). -/
def onMouseUp (w : Whiteboard) : Whiteboard :=
  if w.currentTool = "select" then
    { w with isDraggingSelected := false, isDraggingMultiple := false }
  else if w.isSelecting then
    { w with
      selectedElements := w.elements.filter (fun el => isInsideSelection el w.selectionRect)
      isSelecting := false
      isDraggingMultiple := false }
  else if w.isDraggingMultiple then
    { w with isDraggingMultiple := false }
  else
    match w.currentElement with
    | none => w
    | some cur =>
        let els1 :=
          if w.currentTool = "pen" ∨ w.currentTool = "eraser" ∨
             w.currentTool = "rect" ∨ w.currentTool = "circle"
          then w.elements ++ [cur] else w.elements
        let els2 :=
          if w.currentTool = "pen" ∧ w.currentPenType = "brush" then
            let pushed := els1 ++ [cur]
            if 1000 < pushed.length then pushed.drop (pushed.length - 1000) else pushed
          else els1
        { w with elements := els2, currentElement := none }

/-- Whether an element is a `StrokeElement` (the JS `instanceof` test). -/
def isStrokeEl : Element → Bool
  | .stroke _ => true
  | _ => false

/-- The point predicate of the eraser filter (`src/app.js` lines 664-666):
keep a point iff `Math.sqrt ((pt.x-pos.x)**2 + (pt.y-pos.y)**2) >
eraserLineWidth`, i.e. over `ℚ`: the width is negative or the squared
distance exceeds the squared width. -/
def keepFarPoint (pos : Point) (wdt : ℚ) (pt : Point) : Bool :=
  decide (wdt < 0 ∨ wdt * wdt < dist2 pt pos)

/-- The `map` body of the eraser pass (`src/app.js` lines 662-669): strokes
get their near points stripped in place; other elements pass through. -/
def stripNearPoints (pos : Point) (wdt : ℚ) : Element → Element
  | .stroke s => .stroke { s with points := s.points.filter (keepFarPoint pos wdt) }
  | e => e

/-- The trailing filter predicate `el.points.length > 1` of the eraser pass
(`src/app.js` line 670).  For a non-stroke element the JS expression throws
(`points` is `undefined`); `eraserMove` below only applies this filter when
every element is a stroke, so the non-stroke branch is never exercised. -/
def strokeHasManyPoints : Element → Bool
  | .stroke s => decide (1 < s.points.length)
  | _ => false

/-- The eraser block of `Whiteboard.onMouseMove` (`src/app.js` lines
661-671): `elements.map(strip).filter(el => el.points.length > 1)`.  The
`map` runs to completion, mutating every stroke's points in place; the
`filter` then throws a `TypeError` at the first non-stroke element, in which
case the assignment to `this.elements` never happens — but the stroke
objects inside the old array keep their stripped points.  Result: the
element list after the statement, paired with `true` when the statement
threw. -/
def eraserMove (pos : Point) (wdt : ℚ) (els : List Element) : List Element × Bool :=
  let mapped := els.map (stripNearPoints pos wdt)
  if mapped.all isStrokeEl then (mapped.filter strokeHasManyPoints, false)
  else (mapped, true)

/-- Tagged record produced by `saveDrawing` (`src/app.js` lines 354-362):
`{type, ...fields}` with tag `stroke`, `rect` or `circle`.  A stroke record
carries only points, color, lineWidth and penType. -/
inductive SerialElem where
  | stroke (points : List Point) (color : String) (lineWidth : ℚ) (penType : String)
  | rect (x y w h : ℚ) (color : String)
  | circle (x y radius : ℚ) (color : String)
deriving DecidableEq, Repr

/-- The serializer of `saveDrawing` (`src/app.js` lines 354-362). -/
def serializeElement : Element → SerialElem
  | .stroke s => .stroke s.points s.color s.lineWidth s.penType
  | .rect r => .rect r.x r.y r.w r.h r.color
  | .circle c => .circle c.x c.y c.radius c.color

/-- The reconstructor of `loadDrawing` (`src/app.js` lines 380-388), which
calls the class constructors: `new StrokeElement(points, color, lineWidth,
penType)` leaves `smoothingEnabled` and `smoothingFactor` at the constructor
defaults `false` and `0.6` (`src/app.js` line 21), and applies
`penType || "round"` (the only falsy string is the empty string). -/
def reconstructElement : SerialElem → Element
  | .stroke pts col lw pt =>
      .stroke { points := pts, color := col, lineWidth := lw
              , penType := if pt = "" then "round" else pt
              , smoothingEnabled := false, smoothingFactor := 3 / 5 }
  | .rect x y w h col => .rect { x := x, y := y, w := w, h := h, color := col }
  | .circle x y r col => .circle { x := x, y := y, radius := r, color := col }

/-- Save-then-load round trip of the committed element list: the `data`
array written by `saveDrawing`, mapped back through `loadDrawing`. -/
def roundTrip (els : List Element) : List Element :=
  (els.map serializeElement).map reconstructElement

/-- A stroke with its smoothing fields reset to the `StrokeElement`
constructor defaults (`false`, `0.6`); identity on rectangles and circles. -/
def resetStrokeSmoothing : Element → Element
  | .stroke s => .stroke { s with smoothingEnabled := false, smoothingFactor := 3 / 5 }
  | e => e

/-- Modelled from the spec wording of stroke hit-testing: the query point
lies inside the axis-aligned bounding box of all the stroke's points
expanded by a fixed padding of 5 units on every side, phrased through the
points themselves (some point's padded x-range reaches left of the query,
some point's reaches right of it, and likewise vertically). -/
def inPaddedBBox (pts : List Point) (x y : ℚ) : Prop :=
  (∃ p ∈ pts, p.x - 5 ≤ x) ∧ (∃ p ∈ pts, x ≤ p.x + 5) ∧
  (∃ p ∈ pts, p.y - 5 ≤ y) ∧ (∃ p ∈ pts, y ≤ p.y + 5)

/-- Modelled from the claim wording of the eraser pass on strokes: every
stroke keeps exactly the points strictly farther than the eraser width from
the cursor, and a stroke thereby reduced to 1 or 0 points is removed from
the list entirely. -/
def specEraseStrokes (pos : Point) (wdt : ℚ) (els : List Element) : List Element :=
  els.filterMap (fun el =>
    match el with
    | .stroke s =>
        let kept := s.points.filter (fun pt => decide (wdt * wdt < dist2 pt pos))
        if kept.length ≤ 1 then none else some (.stroke { s with points := kept })
    | e => some e)

/-- Shorthand for a pointer sample with default pressure 1. -/
def mkPt (x y : ℚ) : Point := ⟨x, y, 1⟩

/-- The point list of an element: a stroke's points, and the empty list for
the other variants (which have no `points` field). -/
def strokePoints : Element → List Point
  | .stroke s => s.points
  | _ => []

/-- Whether an element, if it is a stroke, has a non-empty `penType` string
(the `StrokeElement` constructor guarantees this for every committed
stroke via `penType || "round"`). -/
def penTypeSet : Element → Bool
  | .stroke s => decide (s.penType ≠ "")
  | _ => true

/-- Scenario A stroke: points `[(0,0),(10,0),(20,0)]`, width 5, color
`#ff0000`. -/
def scenarioStroke : StrokeElement :=
  { points := [mkPt 0 0, mkPt 10 0, mkPt 20 0], color := "#ff0000", lineWidth := 5
  , penType := "round", smoothingEnabled := false, smoothingFactor := 3 / 5 }

/-- Scenario C circle: centered `(50,50)`, radius 10. -/
def scenarioCircle : Element := .circle ⟨50, 50, 10, "#000000"⟩

/-- Scenario C rectangle at `(200,200)`. -/
def scenarioRect : Element := .rect ⟨200, 200, 20, 20, "#000000"⟩

/-- Scenario C board state: rubber-band selection of `{0,0,100,100}` over the
circle and the rectangle, at the moment of pointer-up. -/
def scenarioBoard : Whiteboard :=
  { elements := [scenarioCircle, scenarioRect], currentElement := none
  , currentTool := "select-rect", currentPenType := "round", isSelecting := true
  , selectionRect := ⟨0, 0, 100, 100⟩, isDraggingSelected := false
  , isDraggingMultiple := false, selectedElements := [] }

/-- An in-progress brush stroke holding a single point. -/
def onePointStroke : Element :=
  .stroke { points := [mkPt 3 4], color := "#000000", lineWidth := 2
          , penType := "brush", smoothingEnabled := false, smoothingFactor := 1 / 2 }

/-- Board state at pointer-up: brush pen, one-point in-progress stroke, empty
committed list. -/
def brushBoard : Whiteboard :=
  { elements := [], currentElement := some onePointStroke
  , currentTool := "pen", currentPenType := "brush", isSelecting := false
  , selectionRect := ⟨0, 0, 0, 0⟩, isDraggingSelected := false
  , isDraggingMultiple := false, selectedElements := [] }

/-- A valid two-point in-progress stroke. -/
def twoPointStroke : Element :=
  .stroke { points := [mkPt 0 0, mkPt 10 10], color := "#000000", lineWidth := 2
          , penType := "round", smoothingEnabled := false, smoothingFactor := 1 / 2 }

/-- Board state at pointer-up: round pen, two-point in-progress stroke. -/
def penBoard : Whiteboard :=
  { elements := [], currentElement := some twoPointStroke
  , currentTool := "pen", currentPenType := "round", isSelecting := false
  , selectionRect := ⟨0, 0, 0, 0⟩, isDraggingSelected := false
  , isDraggingMultiple := false, selectedElements := [] }

/-- A committed stroke drawn with smoothing on and factor 1/2. -/
def smoothedStroke : Element :=
  .stroke { points := [mkPt 0 0, mkPt 10 0], color := "#ff0000", lineWidth := 3
          , penType := "brush", smoothingEnabled := true, smoothingFactor := 1 / 2 }

/-- What `smoothedStroke` becomes after a save/load round trip: identical
except that the smoothing fields revert to the constructor defaults. -/
def smoothedStrokeReloaded : Element :=
  .stroke { points := [mkPt 0 0, mkPt 10 0], color := "#ff0000", lineWidth := 3
          , penType := "brush", smoothingEnabled := false, smoothingFactor := 3 / 5 }

/-- A mixed element list with one of each variant. -/
def sampleList : List Element := [smoothedStroke, scenarioRect, scenarioCircle]

/-- Scenario D stroke: one point near the eraser position `(50,50)` and one
far away. -/
def eraseStroke : Element :=
  .stroke { points := [mkPt 52 52, mkPt 300 300], color := "#000000", lineWidth := 2
          , penType := "round", smoothingEnabled := false, smoothingFactor := 3 / 5 }

/-- Element list mixing a stroke with a rectangle. -/
def mixedList : List Element := [eraseStroke, scenarioRect]

/-- The stroke of `eraseStroke` after the eraser strips its near point:
exactly one point left. -/
def survivorStroke : Element :=
  .stroke { points := [mkPt 300 300], color := "#000000", lineWidth := 2
          , penType := "round", smoothingEnabled := false, smoothingFactor := 3 / 5 }

/-- A one-point stroke used to exercise the jitter filter. -/
def jitterStroke : StrokeElement :=
  { points := [mkPt 0 0], color := "#000000", lineWidth := 2
  , penType := "round", smoothingEnabled := false, smoothingFactor := 3 / 5 }

/-- A 501-point stroke, above the decimation threshold. -/
def longStroke : StrokeElement :=
  { points := List.replicate 501 (mkPt 0 0), color := "#000000", lineWidth := 2
  , penType := "round", smoothingEnabled := false, smoothingFactor := 3 / 5 }

/-- A three-point stroke with smoothing enabled and factor 1/2. -/
def smoothWitStroke : StrokeElement :=
  { points := [mkPt 0 0, mkPt 10 0, mkPt 20 0], color := "#000000", lineWidth := 2
  , penType := "brush", smoothingEnabled := true, smoothingFactor := 1 / 2 }

/-! ## Helper lemmas -/

theorem foldl_min_le_iff (l : List ℚ) :
    ∀ a c : ℚ, l.foldl min a ≤ c ↔ a ≤ c ∨ ∃ b ∈ l, b ≤ c := by
  induction l with
  | nil => intro a c; simp
  | cons x xs ih =>
      intro a c
      rw [List.foldl_cons, ih, min_le_iff, List.exists_mem_cons_iff]
      tauto

theorem le_foldl_max_iff (l : List ℚ) :
    ∀ a c : ℚ, c ≤ l.foldl max a ↔ c ≤ a ∨ ∃ b ∈ l, c ≤ b := by
  induction l with
  | nil => intro a c; simp
  | cons x xs ih =>
      intro a c
      rw [List.foldl_cons, ih, le_max_iff, List.exists_mem_cons_iff]
      tauto

theorem foldl_min_proj (g : Point → ℚ) (p : Point) (rest : List Point) (c : ℚ) :
    (rest.map g).foldl min (g p) ≤ c ↔ ∃ q ∈ p :: rest, g q ≤ c := by
  rw [foldl_min_le_iff, List.exists_mem_cons_iff]
  simp [List.mem_map]

theorem le_foldl_max_proj (g : Point → ℚ) (p : Point) (rest : List Point) (c : ℚ) :
    c ≤ (rest.map g).foldl max (g p) ↔ ∃ q ∈ p :: rest, c ≤ g q := by
  rw [le_foldl_max_iff, List.exists_mem_cons_iff]
  simp [List.mem_map]

/-- The source's padded min/max fold test agrees with the spec's padded
bounding-box membership, for strokes with at least one point. -/
theorem strokeContains_iff (s : StrokeElement) (x y : ℚ) (hne : s.points ≠ []) :
    s.containsPoint x y = true ↔ inPaddedBBox s.points x y := by
  obtain ⟨p, rest, hp⟩ := List.exists_cons_of_ne_nil hne
  have h1 : ((rest.map Point.x).foldl min p.x - 5 ≤ x) ↔ ∃ q ∈ p :: rest, q.x - 5 ≤ x := by
    rw [sub_le_iff_le_add, foldl_min_proj]
    constructor
    · rintro ⟨q, hq, hqc⟩; exact ⟨q, hq, by linarith⟩
    · rintro ⟨q, hq, hqc⟩; exact ⟨q, hq, by linarith⟩
  have h2 : (x ≤ (rest.map Point.x).foldl max p.x + 5) ↔ ∃ q ∈ p :: rest, x ≤ q.x + 5 := by
    rw [← sub_le_iff_le_add, le_foldl_max_proj]
    constructor
    · rintro ⟨q, hq, hqc⟩; exact ⟨q, hq, by linarith⟩
    · rintro ⟨q, hq, hqc⟩; exact ⟨q, hq, by linarith⟩
  have h3 : ((rest.map Point.y).foldl min p.y - 5 ≤ y) ↔ ∃ q ∈ p :: rest, q.y - 5 ≤ y := by
    rw [sub_le_iff_le_add, foldl_min_proj]
    constructor
    · rintro ⟨q, hq, hqc⟩; exact ⟨q, hq, by linarith⟩
    · rintro ⟨q, hq, hqc⟩; exact ⟨q, hq, by linarith⟩
  have h4 : (y ≤ (rest.map Point.y).foldl max p.y + 5) ↔ ∃ q ∈ p :: rest, y ≤ q.y + 5 := by
    rw [← sub_le_iff_le_add, le_foldl_max_proj]
    constructor
    · rintro ⟨q, hq, hqc⟩; exact ⟨q, hq, by linarith⟩
    · rintro ⟨q, hq, hqc⟩; exact ⟨q, hq, by linarith⟩
  simp only [StrokeElement.containsPoint, hp, decide_eq_true_eq, inPaddedBBox]
  exact and_congr h1 (and_congr h2 (and_congr h3 h4))

/-! ## Claim theorems -/

/-- C3: a stroke's `containsPoint` (the `src/unnamed/part_001`
implementation, the only variant overriding the base default) returns true
exactly on the axis-aligned bounding box of the stroke's points expanded by
a fixed padding of 5 units on every side; on Scenario A's stroke, `(10,3)`
hits and `(10,50)` misses. -/
theorem c3_stroke_hit_test :
    (∀ (s : StrokeElement) (x y : ℚ), s.points ≠ [] →
      (s.containsPoint x y = true ↔ inPaddedBBox s.points x y)) ∧
    scenarioStroke.containsPoint 10 3 = true ∧
    scenarioStroke.containsPoint 10 50 = false :=
  ⟨fun s x y hne => strokeContains_iff s x y hne,
   by norm_num [StrokeElement.containsPoint, scenarioStroke, mkPt],
   by norm_num [StrokeElement.containsPoint, scenarioStroke, mkPt]⟩

/-- Witness for C3 at Scenario A's stroke. -/
theorem c3_stroke_hit_test_witness :
    (scenarioStroke.containsPoint 10 3 = true ↔ inPaddedBBox scenarioStroke.points 10 3) ∧
    inPaddedBBox scenarioStroke.points 10 3 := by
  have h := c3_stroke_hit_test.1 scenarioStroke 10 3 (by simp [scenarioStroke])
  exact ⟨h, h.mp (by norm_num [StrokeElement.containsPoint, scenarioStroke, mkPt])⟩

/-- C9: for rectangles and circles, `containsPoint` after `move(dx,dy)`
agrees with `containsPoint` on the pre-move shape at `(x-dx, y-dy)`. -/
theorem c9_move_containment_commutes :
    (∀ (r : RectElement) (dx dy x y : ℚ),
      (Element.move (.rect r) dx dy).containsPoint x y
        = (Element.rect r).containsPoint (x - dx) (y - dy)) ∧
    (∀ (c : CircleElement) (dx dy x y : ℚ),
      (Element.move (.circle c) dx dy).containsPoint x y
        = (Element.circle c).containsPoint (x - dx) (y - dy)) := by
  constructor
  · intro r dx dy x y
    simp only [Element.move, Element.containsPoint]
    rw [decide_eq_decide]
    constructor
    · rintro ⟨ha, hb, hc, hd⟩; exact ⟨by linarith, by linarith, by linarith, by linarith⟩
    · rintro ⟨ha, hb, hc, hd⟩; exact ⟨by linarith, by linarith, by linarith, by linarith⟩
  · intro c dx dy x y
    simp only [Element.move, Element.containsPoint]
    rw [decide_eq_decide]
    have hE : (x - (c.x + dx)) * (x - (c.x + dx)) + (y - (c.y + dy)) * (y - (c.y + dy))
        = (x - dx - c.x) * (x - dx - c.x) + (y - dy - c.y) * (y - dy - c.y) := by ring
    rw [hE]

/-- C6: `addPoint` on a stroke with at least one stored point drops a sample
whose squared distance to the last stored point is below 4 (JS distance
below 2) and appends a sample at squared distance 4 or more (JS distance 2
or more). -/
theorem c6_jitter_filter (s : StrokeElement) (pos prev : Point)
    (hlast : s.points.getLast? = some prev) :
    (dist2 pos prev < 4 → (s.addPoint pos).points = s.points) ∧
    (4 ≤ dist2 pos prev → (s.addPoint pos).points = s.points ++ [pos]) := by
  simp only [StrokeElement.addPoint, hlast]
  constructor
  · intro h; rw [if_pos h]
  · intro h; rw [if_neg (not_lt.mpr h)]

/-- Witness for C6: a sample 1 unit from the last point is dropped, one 5
units away is appended. -/
theorem c6_jitter_filter_witness :
    (jitterStroke.addPoint (mkPt 1 0)).points = jitterStroke.points ∧
    (jitterStroke.addPoint (mkPt 5 0)).points = jitterStroke.points ++ [mkPt 5 0] :=
  ⟨(c6_jitter_filter jitterStroke (mkPt 1 0) (mkPt 0 0) rfl).1 (by norm_num [dist2, mkPt]),
   (c6_jitter_filter jitterStroke (mkPt 5 0) (mkPt 0 0) rfl).2 (by norm_num [dist2, mkPt])⟩

/-- C10: an eraser pointer-move over an element list containing a rectangle
throws (the trailing `el.points.length > 1` filter reads `points` of an
element that has none), so the element-list assignment never completes: the
list is returned unchanged with the error flag set. -/
theorem c10_eraser_nonstroke_throws :
    eraserMove (mkPt 50 50) 10 [scenarioRect] = ([scenarioRect], true) := by decide

/-- C1 counterexample: at pointer-up with the brush pen and an in-progress
stroke holding a single point, the stroke is neither discarded nor appended
exactly once — it is appended twice. -/
theorem c1_commit_counterexample :
    brushBoard.currentElement = some onePointStroke ∧
    (strokePoints onePointStroke).length = 1 ∧
    (onMouseUp brushBoard).elements = [onePointStroke, onePointStroke] :=
  ⟨rfl, rfl, rfl⟩

/-- C1 (amended): on pointer-up in a drawing state (tool not `select`, no
rubber-band or multi-drag in progress, an in-progress element present), the
element is committed with no minimum-validity check: it is appended twice
and the list truncated to its last 1000 entries when the tool is `pen` with
pen type `brush`, appended once for the drawing tools otherwise, and the
in-progress slot is cleared. -/
theorem c1_commit_amended (w : Whiteboard) (cur : Element)
    (h1 : w.currentTool ≠ "select") (h2 : w.isSelecting = false)
    (h3 : w.isDraggingMultiple = false) (h4 : w.currentElement = some cur) :
    (onMouseUp w).currentElement = none ∧
    (onMouseUp w).elements =
      (if w.currentTool = "pen" ∧ w.currentPenType = "brush" then
         (if 1000 < (w.elements ++ [cur, cur]).length then
            (w.elements ++ [cur, cur]).drop ((w.elements ++ [cur, cur]).length - 1000)
          else w.elements ++ [cur, cur])
       else if w.currentTool = "pen" ∨ w.currentTool = "eraser" ∨
               w.currentTool = "rect" ∨ w.currentTool = "circle" then
         w.elements ++ [cur]
       else w.elements) := by
  simp only [onMouseUp, h2, h3, h4, if_neg h1, Bool.false_eq_true, if_false]
  refine ⟨trivial, ?_⟩
  by_cases hb : w.currentTool = "pen" ∧ w.currentPenType = "brush"
  · obtain ⟨hp, hbr⟩ := hb
    simp [hp, hbr]
  · rw [if_neg hb, if_neg hb]

/-- Witness for C1 (amended): round pen, two-point stroke — committed once. -/
theorem c1_commit_amended_witness :
    (onMouseUp penBoard).currentElement = none ∧
    (onMouseUp penBoard).elements = [twoPointStroke] := by
  have h := c1_commit_amended penBoard twoPointStroke (by decide) rfl rfl rfl
  refine ⟨h.1, ?_⟩
  rw [h.2]
  rfl

/-- C8: pointer-up ending a rubber-band gesture selects exactly the
committed elements whose bounding box lies fully inside the rubber-band
rectangle, and clears the rubber-band flag. -/
theorem c8_rubber_band_selection (w : Whiteboard)
    (h1 : w.currentTool ≠ "select") (h2 : w.isSelecting = true) :
    (onMouseUp w).isSelecting = false ∧
    ∀ el : Element, el ∈ (onMouseUp w).selectedElements ↔
      el ∈ w.elements ∧ isInsideSelection el w.selectionRect = true := by
  simp [onMouseUp, h1, h2, List.mem_filter]

/-- Witness for C8 at Scenario C: selecting `{0,0,100,100}` over the circle
at `(50,50)` radius 10 and the rectangle at `(200,200)` yields exactly the
circle. -/
theorem c8_rubber_band_selection_witness :
    scenarioCircle ∈ (onMouseUp scenarioBoard).selectedElements ∧
    scenarioRect ∉ (onMouseUp scenarioBoard).selectedElements ∧
    (onMouseUp scenarioBoard).selectedElements = [scenarioCircle] := by
  have h := c8_rubber_band_selection scenarioBoard (by decide) rfl
  have hc : isInsideSelection scenarioCircle scenarioBoard.selectionRect = true := by
    norm_num [isInsideSelection, getBoundingBox, scenarioCircle, scenarioBoard]
  have hr : isInsideSelection scenarioRect scenarioBoard.selectionRect = false := by
    norm_num [isInsideSelection, getBoundingBox, scenarioRect, scenarioBoard]
  refine ⟨(h.2 scenarioCircle).mpr ⟨by simp [scenarioBoard], hc⟩, fun hx => ?_, ?_⟩
  · have hmem := ((h.2 scenarioRect).mp hx).2
    rw [hr] at hmem
    exact absurd hmem (by decide)
  · norm_num [onMouseUp, scenarioBoard, isInsideSelection, getBoundingBox,
      scenarioCircle, scenarioRect]
    rfl

/-- C2 counterexample: a stroke committed with smoothing enabled and factor
1/2 round-trips to a stroke whose smoothing fields are the constructor
defaults, so the reloaded element differs from the original. -/
theorem c2_round_trip_counterexample :
    roundTrip [smoothedStroke] = [smoothedStrokeReloaded] ∧
    smoothedStrokeReloaded ≠ smoothedStroke := by
  constructor
  · rfl
  · intro hEq
    simp [smoothedStrokeReloaded, smoothedStroke] at hEq

/-- C2 (amended): the save/load round trip preserves every serialized field
(points, color, lineWidth and penType for strokes; all fields of rectangles
and circles) but resets each stroke's `smoothingEnabled` and
`smoothingFactor` to the constructor defaults `false` and `0.6`.  The
hypothesis that stroke pen types are non-empty is guaranteed by the
`StrokeElement` constructor (`penType || "round"`). -/
theorem c2_round_trip_amended (els : List Element)
    (h : ∀ el ∈ els, penTypeSet el = true) :
    roundTrip els = els.map resetStrokeSmoothing := by
  induction els with
  | nil => rfl
  | cons el rest ih =>
      have hrest : ∀ e ∈ rest, penTypeSet e = true :=
        fun e he => h e (List.mem_cons_of_mem el he)
      have htail := ih hrest
      simp only [roundTrip, List.map_cons] at htail ⊢
      rw [htail]
      cases el with
      | stroke s =>
          have hpt : s.penType ≠ "" := by
            simpa [penTypeSet] using h (.stroke s) (List.mem_cons_self _ rest)
          simp [serializeElement, reconstructElement, resetStrokeSmoothing, hpt]
      | rect r => rfl
      | circle c => rfl

/-- Witness for C2 (amended) on a list with one element of each variant. -/
theorem c2_round_trip_amended_witness :
    roundTrip sampleList = sampleList.map resetStrokeSmoothing :=
  c2_round_trip_amended sampleList (by decide)

/-- Stripping near points preserves the element's variant. -/
theorem isStrokeEl_strip (pos : Point) (wdt : ℚ) (el : Element) :
    isStrokeEl (stripNearPoints pos wdt el) = isStrokeEl el := by
  cases el <;> rfl

/-- If every element is a stroke, the mapped list passes the all-strokes
guard of the eraser pass. -/
theorem allStrokes_map_strip (pos : Point) (wdt : ℚ) (els : List Element)
    (hs : ∀ el ∈ els, isStrokeEl el = true) :
    (els.map (stripNearPoints pos wdt)).all isStrokeEl = true := by
  rw [List.all_eq_true]
  intro el hel
  rw [List.mem_map] at hel
  obtain ⟨e, he, rfl⟩ := hel
  rw [isStrokeEl_strip]
  exact hs e he

/-- For a nonnegative eraser width the source's keep-predicate coincides
with the plain squared-distance comparison. -/
theorem filter_keepFarPoint (pos : Point) (wdt : ℚ) (hw : 0 ≤ wdt) (pts : List Point) :
    pts.filter (keepFarPoint pos wdt)
      = pts.filter (fun pt => decide (wdt * wdt < dist2 pt pos)) := by
  apply List.filter_congr
  intro pt _
  have hneg : ¬ wdt < 0 := not_lt.mpr hw
  simp [keepFarPoint, hneg]

/-- On all-stroke lists the eraser's map-then-filter pipeline computes the
spec-side per-stroke description. -/
theorem eraseAllStrokes (pos : Point) (wdt : ℚ) (hw : 0 ≤ wdt) :
    ∀ els : List Element, (∀ el ∈ els, isStrokeEl el = true) →
      (els.map (stripNearPoints pos wdt)).filter strokeHasManyPoints
        = specEraseStrokes pos wdt els := by
  intro els
  induction els with
  | nil => intro _; rfl
  | cons el rest ih =>
      intro h
      have hrest : ∀ e ∈ rest, isStrokeEl e = true :=
        fun e he => h e (List.mem_cons_of_mem el he)
      cases el with
      | stroke s =>
          have hk := filter_keepFarPoint pos wdt hw s.points
          simp only [specEraseStrokes, List.filterMap_cons] at ih ⊢
          simp only [List.map_cons, stripNearPoints, List.filter_cons, strokeHasManyPoints, hk,
            ih hrest]
          by_cases hlen :
              (s.points.filter (fun pt => decide (wdt * wdt < dist2 pt pos))).length ≤ 1
          · rw [if_neg (by simpa using Nat.not_lt.mpr hlen), if_pos hlen]
          · rw [if_pos (by simpa using Nat.not_le.mp hlen), if_neg hlen]
      | rect r => exact absurd (h (.rect r) (List.mem_cons_self _ rest)) (by simp [isStrokeEl])
      | circle c =>
          exact absurd (h (.circle c) (List.mem_cons_self _ rest)) (by simp [isStrokeEl])

/-- C4 counterexample: an eraser pass at `(50,50)` with width 10 over a list
holding Scenario D's stroke and a rectangle throws; the element list keeps
the stroke even though it was reduced to a single point, contradicting the
claimed unconditional removal. -/
theorem c4_eraser_counterexample :
    eraserMove (mkPt 50 50) 10 mixedList = ([survivorStroke, scenarioRect], true) ∧
    (strokePoints survivorStroke).length = 1 := by
  constructor
  · norm_num [eraserMove, stripNearPoints, keepFarPoint, eraseStroke, isStrokeEl,
      strokeHasManyPoints, dist2, mkPt, mixedList, survivorStroke, scenarioRect]
  · rfl

/-- C4 (amended): on an eraser pointer-move over an element list consisting
solely of strokes (the only case in which the pass completes), every stroke
keeps exactly the points strictly farther than the eraser width from the
cursor, and every stroke thereby reduced to 1 or 0 points is removed from
the element list entirely. -/
theorem c4_eraser_amended (pos : Point) (wdt : ℚ) (els : List Element)
    (hw : 0 ≤ wdt) (hs : ∀ el ∈ els, isStrokeEl el = true) :
    eraserMove pos wdt els = (specEraseStrokes pos wdt els, false) := by
  simp only [eraserMove]
  rw [if_pos (allStrokes_map_strip pos wdt els hs)]
  simp only [Prod.mk.injEq]
  exact ⟨eraseAllStrokes pos wdt hw els hs, trivial⟩

/-- Witness for C4 (amended) at Scenario D: the pass strips `(52,52)` and
then drops the one-point stroke from the list. -/
theorem c4_eraser_amended_witness :
    eraserMove (mkPt 50 50) 10 [eraseStroke] = ([], false) := by
  have h := c4_eraser_amended (mkPt 50 50) 10 [eraseStroke] (by norm_num) (by decide)
  rw [h]
  norm_num [specEraseStrokes, eraseStroke, dist2, mkPt]

/-- Unfolding of the even-index recursion over a cons cell. -/
theorem everyOther_cons_tail {α : Type} (a : α) (l : List α) :
    everyOther (a :: l) = a :: everyOther l.tail := by
  cases l <;> rfl

/-- The index-parity filter over an enumeration starting at `n` keeps the
even (resp. odd) positions of the underlying list according to the parity of
`n`. -/
theorem enumFrom_evenIdx {α : Type} :
    ∀ (l : List α) (n : ℕ),
      ((List.enumFrom n l).filter (fun pr => decide (pr.1 % 2 = 0))).map Prod.snd
        = if n % 2 = 0 then everyOther l else everyOther l.tail := by
  intro l
  induction l with
  | nil => intro n; simp [everyOther]
  | cons a rest ih =>
      intro n
      simp only [List.enumFrom_cons, List.filter_cons, decide_eq_true_eq]
      by_cases hn : n % 2 = 0
      · have hn1 : ¬ (n + 1) % 2 = 0 := by omega
        rw [if_pos hn]
        simp only [List.map_cons, ih, if_neg hn1, if_pos hn, everyOther_cons_tail]
      · have hn1 : (n + 1) % 2 = 0 := by omega
        rw [if_neg hn]
        simp only [ih, if_pos hn1, if_neg hn, List.tail_cons]

/-- The source's index-parity filter equals the even-index recursion. -/
theorem evenIndexed_eq_everyOther {α : Type} (l : List α) :
    evenIndexed l = everyOther l := by
  unfold evenIndexed
  rw [show l.enum = List.enumFrom 0 l from rfl, enumFrom_evenIdx]
  simp

/-- The even-index selection of an `n`-element list has `⌈n/2⌉` elements. -/
theorem everyOther_length {α : Type} :
    ∀ l : List α, (everyOther l).length = (l.length + 1) / 2 := by
  intro l
  induction l using everyOther.induct with
  | case1 => simp [everyOther]
  | case2 a => simp [everyOther]
  | case3 a b rest ih =>
      simp only [everyOther, List.length_cons, ih]
      omega

/-- The `j`-th element of the even-index selection is the original element
at index `2*j`. -/
theorem everyOther_getElem {α : Type} :
    ∀ (l : List α) (j : ℕ) (h1 : j < (everyOther l).length) (h2 : 2 * j < l.length),
      (everyOther l)[j] = l[2 * j] := by
  intro l
  induction l using everyOther.induct with
  | case1 => intro j h1 h2; simp [everyOther] at h1
  | case2 a =>
      intro j h1 h2
      have hj : j = 0 := by simp [everyOther] at h1; omega
      subst hj; rfl
  | case3 a b rest ih =>
      intro j h1 h2
      cases j with
      | zero => rfl
      | succ k =>
          have h1r : k < (everyOther rest).length := by
            simp only [everyOther, List.length_cons] at h1; omega
          have h2r : 2 * k < rest.length := by
            simp only [List.length_cons] at h2; omega
          have hrec := ih k h1r h2r
          simp only [everyOther, List.getElem_cons_succ]
          have hidx : 2 * (k + 1) = 2 * k + 1 + 1 := by ring
          simp only [hidx, List.getElem_cons_succ]
          exact hrec

/-- C7: a stroke over 500 points is decimated by `simplify` to exactly the
even-indexed original points in order — `⌈n/2⌉` of them — while a stroke of
at most 500 points is left unchanged. -/
theorem c7_decimation :
    (∀ s : StrokeElement, 500 < s.points.length →
      (s.simplify.points.length = (s.points.length + 1) / 2 ∧
       ∀ (j : ℕ) (h1 : j < s.simplify.points.length) (h2 : 2 * j < s.points.length),
         s.simplify.points[j] = s.points[2 * j])) ∧
    (∀ s : StrokeElement, s.points.length ≤ 500 → s.simplify = s) := by
  constructor
  · intro s hlen
    have hs : s.simplify = { s with points := evenIndexed s.points } := by
      unfold StrokeElement.simplify
      rw [if_pos hlen]
    rw [hs]
    constructor
    · simp only [evenIndexed_eq_everyOther]
      exact everyOther_length s.points
    · intro j h1 h2
      simp only [evenIndexed_eq_everyOther] at h1 ⊢
      exact everyOther_getElem s.points j h1 h2
  · intro s hlen
    unfold StrokeElement.simplify
    rw [if_neg (not_lt.mpr hlen)]

/-- Witness for C7 on a 501-point stroke: the decimated stroke has 251
points. -/
theorem c7_decimation_witness :
    500 < longStroke.points.length ∧ longStroke.simplify.points.length = 251 := by
  have hlen : longStroke.points.length = 501 := by
    rw [show longStroke.points = List.replicate 501 (mkPt 0 0) from rfl, List.length_replicate]
  have h := (c7_decimation.1 longStroke (by omega)).1
  refine ⟨by omega, ?_⟩
  rw [h, hlen]

/-- Structural form of `getSmoothStroke` when smoothing applies. -/
theorem getSmoothStroke_eq (s : StrokeElement) (h1 : s.smoothingEnabled = true)
    (h2 : 3 ≤ s.points.length) (p : Point) (rest : List Point) (hp : s.points = p :: rest) :
    s.getSmoothStroke
      = p :: (List.zipWith (smoothPoint s.smoothingFactor) rest (rest.drop 1)
              ++ [(p :: rest).getLast (List.cons_ne_nil p rest)]) := by
  unfold StrokeElement.getSmoothStroke
  have hcond : ¬ (s.smoothingEnabled = false ∨ s.points.length < 3) := by
    simp [h1]
    omega
  rw [if_neg hcond, hp]

/-- C5: with smoothing on, at least 3 points and a factor in `[0,1]`,
`getSmoothStroke` keeps the length, passes the first and last raw points
through unchanged, and maps each interior point `i` to
`factor * point_i + (1-factor) * midpoint(point_i, point_{i+1})`
componentwise; the raw points are not modified (the function is pure). -/
theorem c5_smoothing (s : StrokeElement) (h1 : s.smoothingEnabled = true)
    (h2 : 3 ≤ s.points.length) (h3 : 0 ≤ s.smoothingFactor) (h4 : s.smoothingFactor ≤ 1) :
    s.getSmoothStroke.length = s.points.length ∧
    s.getSmoothStroke.head? = s.points.head? ∧
    s.getSmoothStroke.getLast? = s.points.getLast? ∧
    ∀ (i : ℕ) (hi1 : 1 ≤ i) (hi2 : i + 1 < s.points.length)
      (ha : i < s.getSmoothStroke.length) (hb : i < s.points.length),
      s.getSmoothStroke[i].x
          = s.smoothingFactor * s.points[i].x
            + (1 - s.smoothingFactor) * ((s.points[i].x + s.points[i + 1].x) / 2) ∧
      s.getSmoothStroke[i].y
          = s.smoothingFactor * s.points[i].y
            + (1 - s.smoothingFactor) * ((s.points[i].y + s.points[i + 1].y) / 2) := by
  obtain ⟨p, rest, hp⟩ :=
    List.exists_cons_of_ne_nil (l := s.points) (by intro h0; simp [h0] at h2)
  have heq := getSmoothStroke_eq s h1 h2 p rest hp
  have hrest2 : 2 ≤ rest.length := by
    rw [hp] at h2
    simp only [List.length_cons] at h2
    omega
  have hzlen : (List.zipWith (smoothPoint s.smoothingFactor) rest (rest.drop 1)).length
      = rest.length - 1 := by
    rw [List.length_zipWith, List.length_drop]
    omega
  refine ⟨?_, ?_, ?_, ?_⟩
  · rw [heq, hp]
    simp only [List.length_cons, List.length_append, List.length_singleton, List.length_nil,
      hzlen]
    omega
  · rw [heq, hp]
    rfl
  · rw [heq, hp]
    have hsplit : p :: (List.zipWith (smoothPoint s.smoothingFactor) rest (rest.drop 1)
          ++ [(p :: rest).getLast (List.cons_ne_nil p rest)])
        = (p :: List.zipWith (smoothPoint s.smoothingFactor) rest (rest.drop 1))
          ++ [(p :: rest).getLast (List.cons_ne_nil p rest)] := rfl
    rw [hsplit, List.getLast?_concat,
      List.getLast?_eq_getLast (p :: rest) (List.cons_ne_nil p rest)]
  · intro i hi1 hi2 ha hb
    obtain ⟨k, rfl⟩ : ∃ k, i = k + 1 := ⟨i - 1, by omega⟩
    have hklt : k < (List.zipWith (smoothPoint s.smoothingFactor) rest (rest.drop 1)).length := by
      rw [hzlen]
      rw [hp] at hi2
      simp only [List.length_cons] at hi2
      omega
    simp only [heq, List.getElem_cons_succ]
    rw [List.getElem_append]
    rw [dif_pos hklt]
    simp only [List.getElem_zipWith, List.getElem_drop]
    simp only [hp, List.getElem_cons_succ]
    have hik : 1 + k = k + 1 := Nat.add_comm 1 k
    simp only [hik, smoothPoint]
    constructor <;> ring

/-- Witness for C5 on a three-point stroke with factor 1/2: the interior
point `(10,0)` is blended to `(12.5, 0)` while the endpoints pass through. -/
theorem c5_smoothing_witness :
    smoothWitStroke.getSmoothStroke.length = smoothWitStroke.points.length ∧
    smoothWitStroke.getSmoothStroke = [mkPt 0 0, ⟨25 / 2, 0, 1⟩, mkPt 20 0] := by
  have h := c5_smoothing smoothWitStroke rfl (by simp [smoothWitStroke])
    (by norm_num [smoothWitStroke]) (by norm_num [smoothWitStroke])
  exact ⟨h.1, by norm_num [StrokeElement.getSmoothStroke, smoothWitStroke, smoothPoint, mkPt]⟩

end WB
